import Mathlib

/-!
Shallow embedding of the zonememstat crate (src/src/lib.rs).

The crate parses the line-oriented output of an external command into
typed records.  We embed:

* Rust `str::parse::<u64>` / `str::parse::<u32>` as `parseUInt 64` /
  `parseUInt 32` (optional leading plus sign, one or more decimal digits,
  whole token consumed, value below the bit-width bound);
* Rust `str::parse::<f64>` as `parseF64`, faithful to the accepted grammar
  (optional sign, decimal mantissa with optional exponent, or the special
  tokens inf/infinity/nan, case-insensitive).  A finite literal is recorded
  with its exact rational value; rounding to the nearest IEEE double is not
  modelled, as no claim depends on the rounded bit pattern;
* Rust `str::split_whitespace` as `splitWhitespace` (split on runs of
  whitespace, discarding empty tokens);
* `parse_line`, which in the source returns `ZoneMemStat` directly and can
  panic (out-of-bounds index for short lines, `.expect` for unparseable
  required fields).  Here it returns `Option ZoneMemStat`, with `none`
  modelling a panic;
* the process stream consumed by `get_state` as a list of `ProcItem`s
  (stdout line, stderr line, or process exit), and the fallible launch as
  an `Except` value supplied as input;
* `get_state` and the public `stat`, where the outer `Option` again models
  a panic propagating out of `parse_line`.
-/

/-- Value of a run of decimal digits, most significant first. -/
def natOfDigits (l : List Char) : Nat :=
  l.foldl (fun a c => a * 10 + (c.toNat - ('0').toNat)) 0

/-- Rust unsigned-integer parsing for a bit width w: an optional leading
plus sign, then one or more decimal digits consuming the whole token, and
the value must fit in w bits. A leading minus sign is not accepted. -/
def parseUInt (w : Nat) (l : List Char) : Option Nat :=
  let r := match l with
    | '+' :: t => t
    | t => t
  if r ≠ [] ∧ r.all Char.isDigit ∧ natOfDigits r < 2 ^ w then
    some (natOfDigits r)
  else
    none

/-- Optional exponent suffix of a float literal; the whole remaining input
must be consumed, as Rust float parsing accepts no trailing characters. -/
def parseExp : List Char → Option Int
  | [] => some 0
  | c :: rest =>
    if c = 'e' ∨ c = 'E' then
      match rest with
      | '+' :: ds => if ds ≠ [] ∧ ds.all Char.isDigit then some (natOfDigits ds : Int) else none
      | '-' :: ds => if ds ≠ [] ∧ ds.all Char.isDigit then some (-(natOfDigits ds : Int)) else none
      | ds => if ds ≠ [] ∧ ds.all Char.isDigit then some (natOfDigits ds : Int) else none
    else none

/-- Unsigned decimal mantissa with optional exponent:
digits, digits dot digits, dot digits, or digits dot (at least one digit
in total), followed by an optional exponent.  Returns the digit value m
and the decimal exponent e, denoting exactly m times ten to the e. -/
def parseMantissa (l : List Char) : Option (Nat × Int) :=
  let ip := l.takeWhile Char.isDigit
  let r1 := l.dropWhile Char.isDigit
  match r1 with
  | '.' :: r2 =>
    let fp := r2.takeWhile Char.isDigit
    let r3 := r2.dropWhile Char.isDigit
    if ip = [] ∧ fp = [] then none
    else
      match parseExp r3 with
      | some e => some (natOfDigits (ip ++ fp), e - (fp.length : Int))
      | none => none
  | r2 =>
    if ip = [] then none
    else
      match parseExp r2 with
      | some e => some (natOfDigits ip, e)
      | none => none

/-- Result of Rust float parsing: a finite value, an infinity, or a
not-a-number token.  A finite value is kept as the exactly extracted
sign, digit value m and decimal exponent e (denoting plus or minus m
times ten to the e); rounding to the nearest IEEE double is not
modelled. -/
inductive RustFloat where
  | finite (negative : Bool) (m : Nat) (e : Int)
  | inf (negative : Bool)
  | nan
  deriving DecidableEq

/-- Exact rational value of a parsed finite float; infinities and nan
carry no rational value. -/
def RustFloat.toRat : RustFloat → Option ℚ
  | .finite negative m e =>
    some ((if negative then -1 else 1) * (m : ℚ) * (10 : ℚ) ^ e)
  | .inf _ => none
  | .nan => none

/-- Rust float parsing on the characters of a token: optional sign, then
either one of the special tokens inf/infinity/nan (case-insensitive) or a
decimal mantissa with optional exponent. -/
def parseF64 (l : List Char) : Option RustFloat :=
  let sr : Bool × List Char := match l with
    | '+' :: t => (false, t)
    | '-' :: t => (true, t)
    | t => (false, t)
  let low := sr.2.map Char.toLower
  if low = ['i', 'n', 'f'] ∨ low = ['i', 'n', 'f', 'i', 'n', 'i', 't', 'y'] then
    some (RustFloat.inf sr.1)
  else if low = ['n', 'a', 'n'] then
    some RustFloat.nan
  else
    match parseMantissa sr.2 with
    | some me => some (RustFloat.finite sr.1 me.1 me.2)
    | none => none

/-- Worker for whitespace splitting: accumulates the current token in
reverse and emits it when whitespace or the end of input is reached. -/
def splitWSAux : List Char → List Char → List (List Char)
  | [], [] => []
  | [], acc => [acc.reverse]
  | c :: cs, acc =>
    if c.isWhitespace then
      match acc with
      | [] => splitWSAux cs []
      | _ => acc.reverse :: splitWSAux cs []
    else splitWSAux cs (c :: acc)

/-- Rust whitespace splitting: split on runs of whitespace, discarding
empty tokens. -/
def splitWhitespace (s : String) : List String :=
  (splitWSAux s.data []).map List.asString

/-- The swap field: either a floating-point percentage or the absent
marker (the source uses None for tokens that fail float parsing). -/
inductive Swap where
  | Float (v : RustFloat)
  | None
  deriving DecidableEq

/-- The alias field: either an alias string or the absent marker (the
source maps the literal token consisting of one dash to None). -/
inductive Alias where
  | String (s : String)
  | None
  deriving DecidableEq

/-- Memory statistics of a single zone, mirroring the source struct.
Numeric fields are natural numbers; the u64/u32 bounds are enforced by
`parseUInt` at parse time. -/
structure ZoneMemStat where
  zonename : String
  «alias» : Alias
  rss : Nat
  cap : Nat
  nover : Nat
  pout : Nat
  swap : Swap
  deriving DecidableEq

/-- Field 6 handling from the source: try to parse as a float; on success
keep the value, on failure resolve to the absent marker. -/
def parseSwap (f : String) : Swap :=
  match parseF64 f.data with
  | some v => Swap.Float v
  | none => Swap.None

/-- Field 1 handling from the source: a token equal to one dash is the
absent marker, any other token is kept verbatim. -/
def parseAlias (f : String) : Alias :=
  if f = "-" then Alias.None else Alias.String f

/-- Core of `parse_line` on the already split fields.  The source indexes
positions 0 through 6 and ignores any further fields; fewer than 7 fields
is an out-of-bounds panic, and a failed parse of field 2, 3, 4 or 5 is an
`.expect` panic — both modelled as `none`. -/
def parseFields : List String → Option ZoneMemStat
  | f0 :: f1 :: f2 :: f3 :: f4 :: f5 :: f6 :: _ =>
    match parseUInt 64 f2.data, parseUInt 64 f3.data,
          parseUInt 32 f4.data, parseUInt 64 f5.data with
    | some vr, some vc, some vn, some vp =>
      some { zonename := f0, «alias» := parseAlias f1, rss := vr, cap := vc,
             nover := vn, pout := vp, swap := parseSwap f6 }
    | _, _, _, _ => none
  | _ => none

/-- The source `parse_line`: split the line on whitespace and build the
record from the fields.  `none` models a panic. -/
def parse_line (x : String) : Option ZoneMemStat :=
  parseFields (splitWhitespace x)

/-- One item of the process output stream: a stdout line, a stderr line,
or the process-exit item produced at the end of the stream. -/
inductive ProcItem where
  | out (l : String)
  | err (l : String)
  | done
  deriving DecidableEq

/-- The stdout accessor from the stream library: only a stdout item
yields a line. -/
def ProcItem.stdout : ProcItem → Option String
  | .out l => some l
  | .err _ => none
  | .done => none

/-- Map a fallible function over a list, failing as a whole if any
element fails; mirrors the push loop in `get_state`, where a panic on any
line aborts the whole collection. -/
def mapOpt (f : α → Option β) : List α → Option (List β)
  | [] => some []
  | a :: as =>
    match f a, mapOpt f as with
    | some b, some bs => some (b :: bs)
    | _, _ => none

/-- The source `get_state`, with the process launch made explicit as an
input: a launch failure is returned as an error; on success every stdout
line of the stream is parsed in order and collected.  The outer `Option`
models a panic escaping `parse_line`. -/
def get_state (launch : Except String (List ProcItem)) :
    Option (Except String (List ZoneMemStat)) :=
  match launch with
  | .error e => some (.error e)
  | .ok items => (mapOpt parse_line (items.filterMap ProcItem.stdout)).map Except.ok

/-- The public `stat`: on success return the records; on a launch error
print a diagnostic to stderr and return the empty vector.  A panic from
parsing still propagates. -/
def stat (launch : Except String (List ProcItem)) : Option (List ZoneMemStat) :=
  match get_state launch with
  | some (.ok v) => some v
  | some (.error _) => some []
  | none => none

/-- Unfolding lemma for `parseFields` on a list of at least 7 fields. -/
theorem parseFields_cons (f0 f1 f2 f3 f4 f5 f6 : String) (rest : List String) :
    parseFields (f0 :: f1 :: f2 :: f3 :: f4 :: f5 :: f6 :: rest) =
      match parseUInt 64 f2.data, parseUInt 64 f3.data,
            parseUInt 32 f4.data, parseUInt 64 f5.data with
      | some vr, some vc, some vn, some vp =>
        some { zonename := f0, «alias» := parseAlias f1, rss := vr, cap := vc,
               nover := vn, pout := vp, swap := parseSwap f6 }
      | _, _, _, _ => none := rfl

/-- C1: a line that splits into exactly 7 whitespace-separated fields whose
fields 2, 3 and 5 parse as unsigned 64-bit integers and whose field 4
parses as an unsigned 32-bit integer is parsed successfully, with the
zonename taken verbatim from field 0 and rss, cap, nover and pout equal to
the parsed values of fields 2, 3, 4 and 5. -/
theorem parse_line_valid_seven_fields (x f0 f1 f2 f3 f4 f5 f6 : String)
    (vr vc vn vp : Nat)
    (hsplit : splitWhitespace x = [f0, f1, f2, f3, f4, f5, f6])
    (h2 : parseUInt 64 f2.data = some vr)
    (h3 : parseUInt 64 f3.data = some vc)
    (h4 : parseUInt 32 f4.data = some vn)
    (h5 : parseUInt 64 f5.data = some vp) :
    parse_line x =
      some { zonename := f0, «alias» := parseAlias f1, rss := vr, cap := vc,
             nover := vn, pout := vp, swap := parseSwap f6 } := by
  unfold parse_line
  rw [hsplit, parseFields_cons, h2, h3, h4, h5]

/-- Witness for C1 on a concrete line. -/
theorem parse_line_valid_seven_fields_witness :
    parse_line "z a 1 2 3 4 5.5" =
      some { zonename := "z", «alias» := Alias.String "a", rss := 1, cap := 2,
             nover := 3, pout := 4,
             swap := Swap.Float (RustFloat.finite false 55 (-1)) } := by
  have h := parse_line_valid_seven_fields "z a 1 2 3 4 5.5" "z" "a" "1" "2" "3" "4" "5.5"
    1 2 3 4 (by decide) (by decide) (by decide) (by decide) (by decide)
  rw [h]
  decide

/-- C4 counterexample: a line with 8 whitespace-separated fields is not a
hard parse failure — the field count is never checked, only positions 0
through 6 are read. -/
theorem parse_line_eight_fields_counterexample :
    (splitWhitespace "z - 1 2 3 4 5 extra").length = 8 ∧
    parse_line "z - 1 2 3 4 5 extra" ≠ none := by
  decide

/-- C4 amended: a line with fewer than 7 fields is a hard parse failure,
but the field count is never checked beyond that: parse_line reads only
the first seven fields, so a line with more than 7 fields can parse. -/
theorem parse_line_field_count (x : String) :
    ((splitWhitespace x).length < 7 → parse_line x = none) ∧
    parse_line x = parseFields ((splitWhitespace x).take 7) := by
  unfold parse_line
  generalize splitWhitespace x = l
  match l with
  | [] => exact ⟨fun _ => rfl, rfl⟩
  | [f0] => exact ⟨fun _ => rfl, rfl⟩
  | [f0, f1] => exact ⟨fun _ => rfl, rfl⟩
  | [f0, f1, f2] => exact ⟨fun _ => rfl, rfl⟩
  | [f0, f1, f2, f3] => exact ⟨fun _ => rfl, rfl⟩
  | [f0, f1, f2, f3, f4] => exact ⟨fun _ => rfl, rfl⟩
  | [f0, f1, f2, f3, f4, f5] => exact ⟨fun _ => rfl, rfl⟩
  | f0 :: f1 :: f2 :: f3 :: f4 :: f5 :: f6 :: rest =>
    refine ⟨fun h => ?_, rfl⟩
    simp only [List.length_cons] at h
    omega

/-- Witness for the amended C4 on a concrete short line. -/
theorem parse_line_field_count_witness :
    (splitWhitespace "a b").length < 7 ∧ parse_line "a b" = none :=
  ⟨by decide, (parse_line_field_count "a b").1 (by decide)⟩

/-- C5: when the launch of the external command fails, stat returns the
empty list, indistinguishable from a successful run with no output. -/
theorem stat_swallows_launch_failure (e : String) :
    stat (Except.error e) = some [] ∧ stat (Except.error e) = stat (Except.ok []) :=
  ⟨rfl, rfl⟩

/-- C7: a line whose field 3 is the token 0 parses with cap equal to 0,
provided the other required fields parse. -/
theorem parse_line_cap_zero (x f0 f1 f2 f4 f5 f6 : String) (rest : List String)
    (vr vn vp : Nat)
    (hsplit : splitWhitespace x = f0 :: f1 :: f2 :: "0" :: f4 :: f5 :: f6 :: rest)
    (h2 : parseUInt 64 f2.data = some vr)
    (h4 : parseUInt 32 f4.data = some vn)
    (h5 : parseUInt 64 f5.data = some vp) :
    parse_line x =
      some { zonename := f0, «alias» := parseAlias f1, rss := vr, cap := 0,
             nover := vn, pout := vp, swap := parseSwap f6 } := by
  unfold parse_line
  have h3 : parseUInt 64 ("0").data = some 0 := by decide
  rw [hsplit, parseFields_cons, h2, h3, h4, h5]

/-- Witness for C7 on a concrete line with a zero cap. -/
theorem parse_line_cap_zero_witness :
    parse_line "z - 5 0 6 7 -" =
      some { zonename := "z", «alias» := Alias.None, rss := 5, cap := 0,
             nover := 6, pout := 7, swap := Swap.None } := by
  have h := parse_line_cap_zero "z - 5 0 6 7 -" "z" "-" "5" "6" "7" "-" [] 5 6 7
    (by decide) (by decide) (by decide) (by decide)
  rw [h]
  decide

/-- C8: the global-zone test line from the source parses to exactly the
expected record. -/
theorem test_parse_gz :
    parse_line "                               global            -      850 16777215        0         0     -" =
      some { zonename := "global", «alias» := Alias.None, rss := 850,
             cap := 16777215, nover := 0, pout := 0, swap := Swap.None } := by
  decide

/-- C2: on a line with at least 7 fields, the swap of a parsed record is
the absent marker exactly when field 6 fails float parsing and the exact
parsed value otherwise, and a parse failure of the line is never caused by
field 6 — only by the four required numeric fields. -/
theorem parse_line_swap_field (x f0 f1 f2 f3 f4 f5 f6 : String) (rest : List String)
    (hsplit : splitWhitespace x = f0 :: f1 :: f2 :: f3 :: f4 :: f5 :: f6 :: rest) :
    (∀ r, parse_line x = some r →
      ((r.swap = Swap.None ↔ parseF64 f6.data = none) ∧
       ∀ v, parseF64 f6.data = some v → r.swap = Swap.Float v)) ∧
    (parse_line x = none →
      parseUInt 64 f2.data = none ∨ parseUInt 64 f3.data = none ∨
      parseUInt 32 f4.data = none ∨ parseUInt 64 f5.data = none) := by
  unfold parse_line
  rw [hsplit, parseFields_cons]
  rcases parseUInt 64 f2.data with _ | vr <;>
    rcases parseUInt 64 f3.data with _ | vc <;>
      rcases parseUInt 32 f4.data with _ | vn <;>
        rcases parseUInt 64 f5.data with _ | vp <;>
          rcases hf : parseF64 f6.data with _ | v <;>
            simp [parseSwap, hf]

/-- Witness for C2: the dash token of the global zone fails float parsing
and is resolved to the absent swap marker, not a line failure. -/
theorem parse_line_swap_field_witness :
    (parse_line "g - 1 2 3 4 -").map ZoneMemStat.swap = some Swap.None := by
  have h := parse_line_swap_field "g - 1 2 3 4 -" "g" "-" "1" "2" "3" "4" "-" []
    (by decide)
  have hp : parse_line "g - 1 2 3 4 -" =
      some { zonename := "g", «alias» := Alias.None, rss := 1, cap := 2,
             nover := 3, pout := 4, swap := Swap.None } := by decide
  have hs := ((h.1 _ hp).1).mpr (by decide)
  rw [hp]
  exact congrArg some hs

/-- C3: on a line with at least 7 fields, the alias of a parsed record is
the absent marker exactly when field 1 is the one-dash token, any other
token is kept verbatim as the alias, and field 1 never causes a parse
failure — only the four required numeric fields can. -/
theorem parse_line_alias_field (x f0 f1 f2 f3 f4 f5 f6 : String) (rest : List String)
    (hsplit : splitWhitespace x = f0 :: f1 :: f2 :: f3 :: f4 :: f5 :: f6 :: rest) :
    (∀ r, parse_line x = some r →
      ((r.«alias» = Alias.None ↔ f1 = "-") ∧
       (f1 ≠ "-" → r.«alias» = Alias.String f1))) ∧
    (parse_line x = none →
      parseUInt 64 f2.data = none ∨ parseUInt 64 f3.data = none ∨
      parseUInt 32 f4.data = none ∨ parseUInt 64 f5.data = none) := by
  unfold parse_line
  rw [hsplit, parseFields_cons]
  rcases parseUInt 64 f2.data with _ | vr <;>
    rcases parseUInt 64 f3.data with _ | vc <;>
      rcases parseUInt 32 f4.data with _ | vn <;>
        rcases parseUInt 64 f5.data with _ | vp <;>
          by_cases hf : f1 = "-" <;>
            simp [parseAlias, hf]

/-- Witness for C3: a non-dash alias token is kept verbatim. -/
theorem parse_line_alias_field_witness :
    (parse_line "g myzone 1 2 3 4 -").map ZoneMemStat.alias =
      some (Alias.String "myzone") := by
  have h := parse_line_alias_field "g myzone 1 2 3 4 -" "g" "myzone" "1" "2" "3" "4" "-" []
    (by decide)
  have hp : parse_line "g myzone 1 2 3 4 -" =
      some { zonename := "g", «alias» := Alias.String "myzone", rss := 1, cap := 2,
             nover := 3, pout := 4, swap := Swap.None } := by decide
  have hs := (h.1 _ hp).2 (by decide)
  rw [hp]
  exact congrArg some hs

/-- On success, mapOpt preserves the list length. -/
theorem mapOpt_length {α β : Type} (f : α → Option β) (l : List α) :
    ∀ bs, mapOpt f l = some bs → bs.length = l.length := by
  induction l with
  | nil =>
    intro bs h
    simp only [mapOpt, Option.some.injEq] at h
    simp [h.symm]
  | cons a as ih =>
    intro bs h
    cases hfa : f a with
    | none => simp [mapOpt, hfa] at h
    | some b =>
      cases hms : mapOpt f as with
      | none => simp [mapOpt, hfa, hms] at h
      | some cs =>
        simp only [mapOpt, hfa, hms, Option.some.injEq] at h
        subst h
        simp [ih cs hms]

/-- On success, element i of the mapOpt result is the image of element i
of the input. -/
theorem mapOpt_get {α β : Type} (f : α → Option β) (l : List α) :
    ∀ bs, mapOpt f l = some bs →
      ∀ i (hi : i < l.length) (hb : i < bs.length),
        f (l.get ⟨i, hi⟩) = some (bs.get ⟨i, hb⟩) := by
  induction l with
  | nil => intro bs h i hi hb; exact absurd hi (by simp)
  | cons a as ih =>
    intro bs h i hi hb
    cases hfa : f a with
    | none => simp [mapOpt, hfa] at h
    | some b =>
      cases hms : mapOpt f as with
      | none => simp [mapOpt, hfa, hms] at h
      | some cs =>
        simp only [mapOpt, hfa, hms, Option.some.injEq] at h
        subst h
        cases i with
        | zero => simpa using hfa
        | succ j =>
          have hj : j < as.length := by simpa using hi
          have hj2 : j < cs.length := by
            have := hb
            simpa using this
          exact ih cs hms j hj hj2

/-- C6: when every stdout line of the stream parses, the collection
returns exactly one record per stdout line, in emission order, with record
i the parse of stdout line i; stderr lines and the exit item contribute
nothing, being dropped by the stdout filter. -/
theorem get_state_preserves_order (items : List ProcItem) (recs : List ZoneMemStat)
    (h : mapOpt parse_line (items.filterMap ProcItem.stdout) = some recs) :
    get_state (Except.ok items) = some (Except.ok recs) ∧
    stat (Except.ok items) = some recs ∧
    recs.length = (items.filterMap ProcItem.stdout).length ∧
    ∀ i (hi : i < (items.filterMap ProcItem.stdout).length) (hr : i < recs.length),
      parse_line ((items.filterMap ProcItem.stdout).get ⟨i, hi⟩) =
        some (recs.get ⟨i, hr⟩) := by
  have h1 : get_state (Except.ok items) = some (Except.ok recs) := by
    simp [get_state, h]
  refine ⟨h1, ?_, mapOpt_length _ _ _ h, mapOpt_get _ _ _ h⟩
  simp [stat, h1]

/-- Witness for C6: two stdout lines, one stderr line and the exit item
give exactly the two parsed records in order. -/
theorem get_state_preserves_order_witness :
    stat (Except.ok [ProcItem.out "g - 1 2 3 4 -", ProcItem.err "noise",
                     ProcItem.out "h - 5 6 7 8 9.5", ProcItem.done]) =
      some [{ zonename := "g", «alias» := Alias.None, rss := 1, cap := 2,
              nover := 3, pout := 4, swap := Swap.None },
            { zonename := "h", «alias» := Alias.None, rss := 5, cap := 6,
              nover := 7, pout := 8,
              swap := Swap.Float (RustFloat.finite false 95 (-1)) }] :=
  (get_state_preserves_order _ _ (by decide)).2.1

/-- A token starting with a minus sign always fails unsigned parsing. -/
theorem parseUInt_minus (w : Nat) (t : List Char) : parseUInt w ('-' :: t) = none := rfl

/-- C10: a leading minus sign in field 2, 3, 4 or 5 makes the line a hard
parse failure, while a negative token in field 6 is accepted and carries a
negative swap value. -/
theorem unsigned_fields_reject_minus (x f0 f1 f2 f3 f4 f5 f6 : String)
    (rest : List String)
    (hsplit : splitWhitespace x = f0 :: f1 :: f2 :: f3 :: f4 :: f5 :: f6 :: rest)
    (hneg : f2.data.head? = some '-' ∨ f3.data.head? = some '-' ∨
            f4.data.head? = some '-' ∨ f5.data.head? = some '-') :
    parse_line x = none ∧
    parse_line "z - 1 2 3 4 -3.5" =
      some { zonename := "z", «alias» := Alias.None, rss := 1, cap := 2,
             nover := 3, pout := 4,
             swap := Swap.Float (RustFloat.finite true 35 (-1)) } ∧
    ∀ q, (RustFloat.finite true 35 (-1)).toRat = some q → q < 0 := by
  have key : ∀ (s : String) (w : Nat), s.data.head? = some '-' →
      parseUInt w s.data = none := by
    intro s w hs
    rcases hd : s.data with _ | ⟨c, t⟩
    · rw [hd] at hs; simp at hs
    · rw [hd] at hs
      simp only [List.head?_cons, Option.some.injEq] at hs
      rw [hs]
      exact parseUInt_minus w t
  refine ⟨?_, by decide, ?_⟩
  · unfold parse_line
    rw [hsplit, parseFields_cons]
    rcases hneg with h | h | h | h <;>
      cases hp2 : parseUInt 64 f2.data <;>
        cases hp3 : parseUInt 64 f3.data <;>
          cases hp4 : parseUInt 32 f4.data <;>
            cases hp5 : parseUInt 64 f5.data <;>
              simp [hp2, hp3, hp4, hp5] <;>
                first
                | exact absurd (key f2 64 h) (by simp [hp2])
                | exact absurd (key f3 64 h) (by simp [hp3])
                | exact absurd (key f4 32 h) (by simp [hp4])
                | exact absurd (key f5 64 h) (by simp [hp5])
  · intro q hq
    simp only [RustFloat.toRat, if_pos, Option.some.injEq] at hq
    rw [hq.symm]
    norm_num

/-- Witness for C10: a minus-signed rss field is a hard failure. -/
theorem unsigned_fields_reject_minus_witness :
    parse_line "z - -5 2 3 4 1.5" = none :=
  (unsigned_fields_reject_minus "z - -5 2 3 4 1.5" "z" "-" "-5" "2" "3" "4" "1.5" []
    (by decide) (Or.inl (by decide))).1

/-- C9: nover is parsed with the 32-bit bound while rss, cap and pout use
the 64-bit bound, so a line whose field 4 is a valid unsigned integer of
value 2 to the 32 fails to parse, while the same token in field 2
succeeds. -/
theorem nover_is_u32 :
    parseUInt 32 ("4294967296").data = none ∧
    parseUInt 64 ("4294967296").data = some 4294967296 ∧
    parse_line "z - 1 2 4294967296 3 1.5" = none ∧
    parse_line "z - 4294967296 2 0 3 1.5" =
      some { zonename := "z", «alias» := Alias.None, rss := 4294967296, cap := 2,
             nover := 0, pout := 3,
             swap := Swap.Float (RustFloat.finite false 15 (-1)) } := by
  decide
